import Mathlib

/-!
Verification development for the language-model-playground repository.

This file gives a shallow embedding of the parts of the repository that the
checked claims are about:

* the whitespace tokenizers (`lmp/tknzr/_ws_tknzr.py` and
  `lmp/tokenizer/_whitespace_dict_tokenizer.py`), together with the base
  tokenizer operations (`norm`, `enc`, `dec`, `pad_to_max`, `trunc_to_max`)
  whose source module is not part of the source tree and is therefore
  modelled from the specification;
* the LSTM-2002 gate-range layout and parameter initialization (the model
  module is absent from the source tree; the embedding follows the
  specification, which matches the shape and bound assertions of
  `test/lmp/model/_lstm_2002/test_init.py`);
* the distributed training script `lmp/script/ddp_train_model.py`:
  CLI-argument validation, the configuration-sync step over the rendezvous
  store, the per-rank data-loader batch size, and the checkpoint/logging
  discipline of the training loop.

Python strings are embedded as `List Char`, Python ints as `Int`, Python
floats appearing only as opaque decimal literals are carried by their
canonical repr string where the dynamic `type(...)(value)` reconstruction of
the sync step is modelled, and as `Rat` (ordered field on exact values)
where only their ordering matters (argument validation).
-/

/-! ## Characters and whitespace

`isWs` models the whitespace class used by the tokenizers via Python's
regular-expression pattern `\s`; the embedded character set is the one
`Char.isWhitespace` covers (space, tab, carriage return, newline). -/

def isWs (c : Char) : Bool := c.isWhitespace

/-- Optional lowercasing of one character (Python `str.lower`, restricted to
the ASCII range that `Char.toLower` maps). -/
def lowChar (u : Bool) (c : Char) : Char := if u then c.toLower else c

/-- Optional lowercasing of a token / text. -/
def lowTok (u : Bool) (t : List Char) : List Char := t.map (lowChar u)

/-- `' '.join(tks)`: interleave single spaces between tokens. -/
def joinSpace (ts : List (List Char)) : List Char := List.intercalate [' '] ts

/-! ## Splitting on whitespace

`splitTokens` extracts the maximal non-whitespace runs of a string, in
order; it is the combined effect of collapsing whitespace runs to single
separators, stripping the ends, and splitting on the separators.

`reSplitWs` is the literal embedding of Python's `re.split(r'\s+', s)`:
pieces between maximal whitespace runs, with an empty piece at the front
when the string starts with whitespace, an empty piece at the back when it
ends with whitespace, and `[''] ` for the empty string. Both are single
right folds over the character list. -/

def flushTok (st : List Char × List (List Char)) : List (List Char) :=
  if st.1 = [] then st.2 else st.1 :: st.2

def splitStep (c : Char) (st : List Char × List (List Char)) :
    List Char × List (List Char) :=
  if isWs c then ([], flushTok st) else (c :: st.1, st.2)

def splitTokens (cs : List Char) : List (List Char) :=
  flushTok (cs.foldr splitStep ([], []))

def reStep (c : Char) (st : List Char × Bool × List (List Char)) :
    List Char × Bool × List (List Char) :=
  if isWs c then
    (if st.2.1 then ([], true, st.2.2) else ([], true, st.1 :: st.2.2))
  else (c :: st.1, false, st.2.2)

def reSplitWs (cs : List Char) : List (List Char) :=
  let st := cs.foldr reStep ([], false, [])
  st.1 :: st.2.2

/-! ## The whitespace tokenizer (`lmp.tknzr`) -/

/-- Modelled from the spec: `BaseTknzr.norm` is absent from the source tree.
Per the specification, normalization optionally lowercases the text, turns
every whitespace run into a single separator and discards leading/trailing
whitespace; this is exactly lowercasing the single-space join of the maximal
non-whitespace runs. -/
def BaseTknzr.norm (u : Bool) (cs : List Char) : List Char :=
  lowTok u (joinSpace (splitTokens cs))

/-- `WsTknzr.tknz` from `lmp/tknzr/_ws_tknzr.py`: normalize, then
`re.split(r'\s+', ...)`, returning `[]` when the split yields `['']`. -/
def tknz (u : Bool) (txt : List Char) : List (List Char) :=
  let tks := reSplitWs (BaseTknzr.norm u txt)
  if tks = [[]] then [] else tks

/-- `WsTknzr.dtknz` from `lmp/tknzr/_ws_tknzr.py`: join with single spaces,
then normalize. -/
def dtknz (u : Bool) (tks : List (List Char)) : List Char :=
  BaseTknzr.norm u (joinSpace tks)

/-! ## Vocabulary and encode/decode -/

abbrev Vocab := List (List Char × Nat)

def BOS_TKID : Nat := 0
def EOS_TKID : Nat := 1
def PAD_TKID : Nat := 2
def UNK_TKID : Nat := 3

def bosTk : List Char := "[bos]".toList
def eosTk : List Char := "[eos]".toList
def padTk : List Char := "[pad]".toList
def unkTk : List Char := "[unk]".toList

/-- `tk2id` lookup (Python `dict` keyed by token; keys are unique, the first
binding is the binding). -/
def lookupTkId (V : Vocab) (tk : List Char) : Option Nat :=
  (V.find? (fun p => p.1 == tk)).map (fun p => p.2)

/-- `id2tk` lookup (the inverse `dict`). -/
def lookupIdTk (V : Vocab) (i : Nat) : Option (List Char) :=
  (V.find? (fun p => p.2 == i)).map (fun p => p.1)

/-- Modelled from the spec: `BaseTknzr.enc` is absent from the source tree.
Per the specification, `enc` tokenizes the (normalized) text, maps each
token to its id substituting the unknown-token id for out-of-vocabulary
tokens, and wraps the result with the begin-of-sequence and end-of-sequence
ids. -/
def enc (V : Vocab) (u : Bool) (txt : List Char) : List Nat :=
  BOS_TKID :: (tknz u txt).map (fun tk => (lookupTkId V tk).getD UNK_TKID)
    ++ [EOS_TKID]

/-- Modelled from the spec: `BaseTknzr.dec` is absent from the source tree.
Per the specification it is the inverse of `enc`, mapping ids back to token
strings (ids without a vocabulary entry map to the unknown token) and
detokenizing; the repository's tests pin that special tokens are kept. -/
def dec (V : Vocab) (u : Bool) (ids : List Nat) : List Char :=
  dtknz u (ids.map (fun i => (lookupIdTk V i).getD unkTk))

/-! ## Padding and truncation -/

/-- Modelled from the spec: `BaseTknzr.pad_to_max` is absent from the source
tree. Per the specification, padding appends the padding id to reach the
requested length (it only ever appends). -/
def pad_to_max (max_seq_len : Nat) (tkids : List Nat) : List Nat :=
  tkids ++ List.replicate (max_seq_len - tkids.length) PAD_TKID

/-- Modelled from the spec: `BaseTknzr.trunc_to_max` is absent from the
source tree. Per the specification, truncation keeps the first
`max_seq_len` ids. -/
def trunc_to_max (max_seq_len : Nat) (tkids : List Nat) : List Nat :=
  tkids.take max_seq_len

/-! ## The dict-based whitespace tokenizer
(`lmp/tokenizer/_whitespace_dict_tokenizer.py`)

`tokenize` performs NFKC normalization, optional lowercasing, stripping of
leading/trailing whitespace, an explicit empty-string check and finally
`re.split(r'\s+', ...)`. NFKC normalization is kept abstract as a function
parameter. -/

def stripWs (cs : List Char) : List Char :=
  ((cs.dropWhile isWs).reverse.dropWhile isWs).reverse

def tokenizeDict (nfkc : List Char → List Char) (u : Bool) (s : List Char) :
    List (List Char) :=
  let s1 := if u then (nfkc s).map Char.toLower else nfkc s
  let s2 := stripWs s1
  if s2 = [] then [] else reSplitWs s2

/-! ## LSTM-2002 gate ranges

Modelled from the spec: the LSTM-2002 model module is absent from the source
tree. Per the specification the fused pre-activation vector of length
`n_blk * (3 + d_blk)` is sliced into four contiguous ranges fixed at
construction from the block count and block width: forget gate, input gate,
output gate, then candidate memory. -/

def fgRange (n_blk d_blk : Nat) : Nat × Nat := (0, n_blk)
def igRange (n_blk d_blk : Nat) : Nat × Nat := (n_blk, 2 * n_blk)
def ogRange (n_blk d_blk : Nat) : Nat × Nat := (2 * n_blk, 3 * n_blk)
def mcRange (n_blk d_blk : Nat) : Nat × Nat := (3 * n_blk, n_blk * (3 + d_blk))

def rangeSet (r : Nat × Nat) : Finset Nat := Finset.Ico r.1 r.2

/-! ## Distributed configuration sync (`lmp/script/ddp_train_model.py`)

The argument namespace is a dynamically typed record (`args.__dict__`):
an association list from field names to Python values. `PyVal` carries the
value types actually produced by the CLI parser: `str`, `int`, `bool`
(`store_true` flags) and `float`. A float value is represented by its
canonical `repr` string: in Python 3 `str(float)` produces the canonical
repr and `float` parses it back to the same value, so the repr string is a
faithful carrier for the sync step's string round-trip. -/

inductive PyVal where
  | pyStr (s : String)
  | pyInt (n : Int)
  | pyBool (b : Bool)
  | pyFloat (r : String)
deriving DecidableEq

/-- Python `str(value)` as performed by the host before `store.set`. -/
def pyStrOf : PyVal → String
  | .pyStr s => s
  | .pyInt n => toString n
  | .pyBool b => if b then "True" else "False"
  | .pyFloat r => r

/-- Decimal digit accumulation. -/
def parseDigits (acc : Nat) : List Char → Nat
  | [] => acc
  | c :: cs => parseDigits (acc * 10 + (c.toNat - 48)) cs

/-- Python `int(bytes)` on the canonical decimal strings the host produces:
an optional leading minus sign followed by decimal digits. -/
def parsePyInt (s : String) : Int :=
  match s.toList with
  | '-' :: cs => -(parseDigits 0 cs : Int)
  | cs => (parseDigits 0 cs : Nat)

/-- The non-host reconstruction `type(args.__dict__[k])(v)` (with the
`str`-typed fields decoded as UTF-8 text instead): the first argument is
the local value whose type directs the reconstruction, the second is the
string fetched from the store. `bool(v)` on a bytes value is the
nonemptiness test. -/
def pyCast : PyVal → String → PyVal
  | .pyStr _, s => .pyStr s
  | .pyInt _, s => .pyInt (parsePyInt s)
  | .pyBool _, s => .pyBool (s != "")
  | .pyFloat _, s => .pyFloat s

/-- The five distributed-identity fields excluded from the sync. -/
def distArgsK : List String :=
  ["host_name", "host_port", "local_rank", "rank", "world_size"]

/-- One synchronized field on a non-host rank: reconstruct the local value
from the host's stored string. -/
def syncField (hostVal localVal : PyVal) : PyVal :=
  pyCast localVal (pyStrOf hostVal)

/-- The configuration-sync step of `main` (lines 376-391) as seen by a
non-host rank: every field not in `distArgsK` is overwritten by the
reconstruction of the host's stored string value; the distributed-identity
fields keep their local values. -/
def syncArgs (host localNs : List (String × PyVal)) : List (String × PyVal) :=
  localNs.map (fun kv =>
    if kv.1 ∈ distArgsK then kv
    else
      match host.find? (fun hkv => hkv.1 == kv.1) with
      | some hkv => (kv.1, syncField hkv.2 kv.2)
      | none => kv)

/-- The host namespace of the two-process example in the script docstring,
with `--is_dset_in_memory` not passed (so `False`). -/
def hostNs : List (String × PyVal) :=
  [("model_name", .pyStr "Elman-Net"),
   ("host_name", .pyStr "127.0.0.1"),
   ("host_port", .pyInt 30678),
   ("local_rank", .pyInt 0),
   ("rank", .pyInt 0),
   ("world_size", .pyInt 2),
   ("batch_size", .pyInt 32),
   ("beta1", .pyFloat "0.9"),
   ("beta2", .pyFloat "0.99"),
   ("ckpt_step", .pyInt 1000),
   ("dset_name", .pyStr "wiki-text-2"),
   ("eps", .pyFloat "1e-08"),
   ("exp_name", .pyStr "my_model_exp"),
   ("log_step", .pyInt 200),
   ("lr", .pyFloat "0.0001"),
   ("max_norm", .pyFloat "1.0"),
   ("max_seq_len", .pyInt 128),
   ("n_epoch", .pyInt 10),
   ("tknzr_exp_name", .pyStr "my_tknzr_exp"),
   ("ver", .pyStr "train"),
   ("warmup_step", .pyInt 10000),
   ("wd", .pyFloat "0.01"),
   ("is_dset_in_memory", .pyBool false),
   ("n_worker", .pyInt 0),
   ("seed", .pyInt 42)]

/-- The rank-1 namespace of the same run: identical configuration, only the
distributed-identity fields differ. -/
def rank1Ns : List (String × PyVal) :=
  hostNs.map (fun kv =>
    if kv.1 = "rank" then (kv.1, .pyInt 1)
    else if kv.1 = "local_rank" then (kv.1, .pyInt 1)
    else kv)

/-- Field lookup in a namespace. -/
def nsGet (ns : List (String × PyVal)) (k : String) : Option PyVal :=
  (ns.find? (fun kv => kv.1 == k)).map (fun kv => kv.2)

/-! ## CLI-argument validation (`lmp/script/ddp_train_model.py`, main)

The typed argument namespace after `parse_args`: `int`-typed flags become
`Int`, `float`-typed flags become `Rat` (only their ordering is consumed by
validation), `str` flags become `String`, `store_true` flags become
`Bool`. -/

structure DdpArgs where
  model_name : String
  host_name : String
  host_port : Int
  local_rank : Int
  rank : Int
  world_size : Int
  batch_size : Int
  beta1 : Rat
  beta2 : Rat
  ckpt_step : Int
  dset_name : String
  eps : Rat
  exp_name : String
  log_step : Int
  lr : Rat
  max_norm : Rat
  max_seq_len : Int
  n_epoch : Int
  tknzr_exp_name : String
  ver : String
  warmup_step : Int
  wd : Rat
  is_dset_in_memory : Bool
  n_worker : Int
  seed : Int
deriving DecidableEq

/-- Nondecreasing-chain check over the value list. -/
def chainLeB : List Rat → Bool
  | [] => true
  | [_] => true
  | a :: b :: rest => decide (a ≤ b) && chainLeB (b :: rest)

/-- Modelled from the spec: `lmp.util.validate.raise_if_wrong_ordered` is
absent from the source tree. Per the specification it raises a fatal error
whenever the supplied values are not in the stated nondecreasing order
(`min <= value <= max where defined`). -/
def raiseIfWrongOrdered (vals : List Rat) (valNames : List String) :
    Except String Unit :=
  if chainLeB vals then Except.ok ()
  else Except.error ("Must have " ++ String.intercalate " <= " valNames ++ ".")

/-- Fail-fast sequencing of two checks (the second runs only when the first
does not raise). -/
def exceptSeq (x y : Except String Unit) : Except String Unit :=
  match x with
  | .ok _ => y
  | .error e => .error e

/-- The validation prefix of `main` (lines 326-352): the exact sequence of
`raise_if_wrong_ordered` calls, in source order. `nCpu` stands for
`len(os.sched_getaffinity(0))`. -/
def validateDdpArgs (a : DdpArgs) (nCpu : Int) : Except String Unit :=
  exceptSeq
    (raiseIfWrongOrdered [1, (a.batch_size : Rat)] ["1", "args.batch_size"]) (exceptSeq
    (raiseIfWrongOrdered [1, (a.ckpt_step : Rat)] ["1", "args.ckpt_step"]) (exceptSeq
    (raiseIfWrongOrdered [1, (a.log_step : Rat)] ["1", "args.log_step"]) (exceptSeq
    (raiseIfWrongOrdered [0, a.max_norm] ["0", "args.max_norm"]) (exceptSeq
    (raiseIfWrongOrdered [1, (a.n_epoch : Rat)] ["1", "args.n_epoch"]) (exceptSeq
    (raiseIfWrongOrdered [0, (a.n_worker : Rat), (nCpu : Rat)]
      ["0", "args.n_worker", "number of available CPUs"]) (exceptSeq
    (raiseIfWrongOrdered [(a.n_worker : Rat), (a.batch_size : Rat)]
      ["args.n_worker", "args.batch_size"]) (exceptSeq
    (raiseIfWrongOrdered [0, (a.world_size : Rat)] ["0", "args.world_size"]) (exceptSeq
    (raiseIfWrongOrdered [0, (a.local_rank : Rat)] ["0", "args.local_rank"])
    (raiseIfWrongOrdered [0, (a.rank : Rat), ((a.world_size : Rat) - 1)]
      ["0", "args.rank", "args.world_size - 1"])))))))))

/-- The observable setup actions of `main` that follow validation. -/
inductive SetupStep where
  | cfgSaved
  | modelCreated
deriving DecidableEq

/-- The startup prefix of `main`: validation happens first; only when every
check passes does the script reach configuration saving and model
construction. -/
def ddpMainSetup (a : DdpArgs) (nCpu : Int) : Except String (List SetupStep) :=
  match validateDdpArgs a nCpu with
  | .error e => .error e
  | .ok _ => .ok ((if a.rank = 0 then [SetupStep.cfgSaved] else [])
      ++ [SetupStep.modelCreated])

/-- The per-rank mini-batch size handed to the `DataLoader` (line 429):
`args.batch_size // args.world_size`, Python floor division. -/
def dataLoaderBatchSize (a : DdpArgs) : Int :=
  Int.fdiv a.batch_size a.world_size

/-! ## The distributed training loop (`lmp/script/ddp_train_model.py`,
lines 469-540)

The loop is modelled by the trace of externally visible checkpoint/logging
events it produces. The global step counter starts at 0 and is incremented
once per batch across all epochs. -/

inductive TrainEvent where
  | ckptSave (step : Nat)
  | tbScalar (tag : String) (step : Nat)
deriving DecidableEq

/-- Events emitted at the end of one loop iteration with global step `step`
(after the increment): a checkpoint save on rank 0 at multiples of
`ckptStep`, and the two tensorboard scalars on rank 0 at multiples of
`logStep`. -/
def stepEvents (rank ckptStep logStep step : Nat) : List TrainEvent :=
  (if rank = 0 ∧ step % ckptStep = 0 then [TrainEvent.ckptSave step] else []) ++
  (if step % logStep = 0 then
    (if rank = 0 then
      [TrainEvent.tbScalar "train-loss" step, TrainEvent.tbScalar "lr" step]
     else [])
   else [])

/-- The global step values visited during epoch `epoch` when every epoch
yields `nBatch` batches. -/
def epochSteps (nBatch epoch : Nat) : List Nat :=
  (List.range nBatch).map (fun b => epoch * nBatch + b + 1)

/-- The full event trace of the training loop, followed by the final
checkpoint save on rank 0. -/
def ddpTrainLoop (rank ckptStep logStep nEpoch nBatch : Nat) : List TrainEvent :=
  ((List.range nEpoch).flatMap
    (fun e => (epochSteps nBatch e).flatMap (stepEvents rank ckptStep logStep)))
  ++ (if rank = 0 then [TrainEvent.ckptSave (nEpoch * nBatch)] else [])

/-- The checkpoint keys (step counts) appearing in a trace, in order. -/
def savedSteps (evts : List TrainEvent) : List Nat :=
  evts.filterMap (fun e =>
    match e with
    | .ckptSave s => some s
    | _ => none)

/-- The tensorboard scalar events of a trace. -/
def tbLogs (evts : List TrainEvent) : List TrainEvent :=
  evts.filter (fun e =>
    match e with
    | .tbScalar _ _ => true
    | _ => false)

/-! ## LSTM-2002 parameter initialization

Modelled from the spec: the LSTM-2002 model module is absent from the source
tree. Per the specification, every weight is uniformly initialized within
plus/minus `1 / sqrt(max(d_emb, n_blk * d_blk))`; the forget-gate bias is
initialized non-negative (within `[0, bound]`) and the input-gate and
output-gate biases non-positive (within `[-bound, 0]`). A uniform draw in an
interval is modelled by an affine image of a sample `u` from `[0, 1]`; each
parameter tensor is the image of its own list of samples. -/

noncomputable def invSqrtDim (d_emb d_hid : Nat) : Real :=
  1 / Real.sqrt ((max d_emb d_hid : Nat) : Real)

/-- One uniform draw in `[-b, b]` from a sample `u` in `[0, 1]`. -/
noncomputable def drawSym (b u : Real) : Real := (2 * u - 1) * b

/-- One uniform draw in `[0, b]` from a sample `u` in `[0, 1]`. -/
noncomputable def drawNonneg (b u : Real) : Real := u * b

/-- One uniform draw in `[-b, 0]` from a sample `u` in `[0, 1]`. -/
noncomputable def drawNonpos (b u : Real) : Real := -(u * b)

/-- The `[0, 1]` samples consumed by construction, one list per learnable
parameter tensor (names follow `test/lmp/model/_lstm_2002/test_init.py`). -/
structure LSTM2002Draws where
  emb : List Real
  e2cg_w : List Real
  e2cg_b_fg : List Real
  e2cg_b_ig : List Real
  e2cg_b_og : List Real
  e2cg_b_mc : List Real
  h2cg_w : List Real
  h_0 : List Real
  c_0 : List Real
  c2fg : List Real
  c2ig : List Real
  c2og : List Real
  h2e_w : List Real
  h2e_b : List Real

/-- Every sample lies in `[0, 1]`. -/
structure DrawsIn01 (ds : LSTM2002Draws) : Prop where
  emb01 : ∀ u ∈ ds.emb, 0 ≤ u ∧ u ≤ 1
  e2cg_w01 : ∀ u ∈ ds.e2cg_w, 0 ≤ u ∧ u ≤ 1
  e2cg_b_fg01 : ∀ u ∈ ds.e2cg_b_fg, 0 ≤ u ∧ u ≤ 1
  e2cg_b_ig01 : ∀ u ∈ ds.e2cg_b_ig, 0 ≤ u ∧ u ≤ 1
  e2cg_b_og01 : ∀ u ∈ ds.e2cg_b_og, 0 ≤ u ∧ u ≤ 1
  e2cg_b_mc01 : ∀ u ∈ ds.e2cg_b_mc, 0 ≤ u ∧ u ≤ 1
  h2cg_w01 : ∀ u ∈ ds.h2cg_w, 0 ≤ u ∧ u ≤ 1
  h_001 : ∀ u ∈ ds.h_0, 0 ≤ u ∧ u ≤ 1
  c_001 : ∀ u ∈ ds.c_0, 0 ≤ u ∧ u ≤ 1
  c2fg01 : ∀ u ∈ ds.c2fg, 0 ≤ u ∧ u ≤ 1
  c2ig01 : ∀ u ∈ ds.c2ig, 0 ≤ u ∧ u ≤ 1
  c2og01 : ∀ u ∈ ds.c2og, 0 ≤ u ∧ u ≤ 1
  h2e_w01 : ∀ u ∈ ds.h2e_w, 0 ≤ u ∧ u ≤ 1
  h2e_b01 : ∀ u ∈ ds.h2e_b, 0 ≤ u ∧ u ≤ 1

/-- The learnable parameter tensors of the LSTM-2002 model, as flat entry
lists. -/
structure LSTM2002Params where
  emb : List Real
  e2cg_w : List Real
  e2cg_b_fg : List Real
  e2cg_b_ig : List Real
  e2cg_b_og : List Real
  e2cg_b_mc : List Real
  h2cg_w : List Real
  h_0 : List Real
  c_0 : List Real
  c2fg : List Real
  c2ig : List Real
  c2og : List Real
  h2e_w : List Real
  h2e_b : List Real

/-- Construction-time initialization: all weights are uniform draws in
`[-b, b]` with `b = 1 / sqrt(max(d_emb, n_blk * d_blk))`; the forget-gate
bias slice is drawn from `[0, b]`, the input-gate and output-gate bias
slices from `[-b, 0]`. -/
noncomputable def lstm2002Init (d_emb n_blk d_blk : Nat) (ds : LSTM2002Draws) :
    LSTM2002Params :=
  let b := invSqrtDim d_emb (n_blk * d_blk)
  { emb := ds.emb.map (drawSym b)
    e2cg_w := ds.e2cg_w.map (drawSym b)
    e2cg_b_fg := ds.e2cg_b_fg.map (drawNonneg b)
    e2cg_b_ig := ds.e2cg_b_ig.map (drawNonpos b)
    e2cg_b_og := ds.e2cg_b_og.map (drawNonpos b)
    e2cg_b_mc := ds.e2cg_b_mc.map (drawSym b)
    h2cg_w := ds.h2cg_w.map (drawSym b)
    h_0 := ds.h_0.map (drawSym b)
    c_0 := ds.c_0.map (drawSym b)
    c2fg := ds.c2fg.map (drawSym b)
    c2ig := ds.c2ig.map (drawSym b)
    c2og := ds.c2og.map (drawSym b)
    h2e_w := ds.h2e_w.map (drawSym b)
    h2e_b := ds.h2e_b.map (drawSym b) }

/-- All entries of a list lie in `[lo, hi]`. -/
def entriesIn (l : List Real) (lo hi : Real) : Prop :=
  ∀ x ∈ l, lo ≤ x ∧ x ≤ hi

/-- The test vocabulary of `test/lmp/tknzr/_ws/test_enc_and_dec.py`. -/
def testVocab : Vocab :=
  [(bosTk, 0), (eosTk, 1), (padTk, 2), (unkTk, 3),
   ("a".toList, 4), ("b".toList, 5), ("c".toList, 6),
   ("1".toList, 7), ("2".toList, 8), ("哈".toList, 9)]

/-- A well-formed argument namespace (the docstring example, with the
float-typed hyperparameters at neutral values: validation only consumes
`max_norm` among them). -/
def exArgsBase : DdpArgs :=
  { model_name := "Elman-Net"
    host_name := "127.0.0.1"
    host_port := 30678
    local_rank := 0
    rank := 0
    world_size := 2
    batch_size := 32
    beta1 := 1
    beta2 := 1
    ckpt_step := 1000
    dset_name := "wiki-text-2"
    eps := 1
    exp_name := "my_model_exp"
    log_step := 200
    lr := 1
    max_norm := 1
    max_seq_len := 128
    n_epoch := 10
    tknzr_exp_name := "my_tknzr_exp"
    ver := "train"
    warmup_step := 10000
    wd := 1
    is_dset_in_memory := false
    n_worker := 0
    seed := 42 }

/-- The base namespace with `batch_size = 2` and `world_size = 4`: a
configuration whose per-rank batch size is zero. -/
def exArgsSmallBatch : DdpArgs :=
  { exArgsBase with batch_size := 2, world_size := 4 }

/-- The base namespace with `world_size = 3`: a configuration whose world
size does not divide the batch size. -/
def exArgsUneven : DdpArgs :=
  { exArgsBase with world_size := 3 }

/-- The base namespace with `batch_size = 0`: a configuration violating the
first validation constraint. -/
def exArgsBad : DdpArgs :=
  { exArgsBase with batch_size := 0 }

/-- Decidable form of the in-vocabulary round-trip condition for the tokens
of a text: every token has an id and the inverse lookup returns the token
again. -/
def vocabRoundtrips (V : Vocab) (u : Bool) (txt : List Char) : Bool :=
  (tknz u txt).all (fun tk =>
    match lookupTkId V tk with
    | some i => lookupIdTk V i == some tk
    | none => false)

/-- A one-sample-per-tensor draw record with every sample `1/2`. -/
noncomputable def halfDraws : LSTM2002Draws :=
  { emb := [1 / 2]
    e2cg_w := [1 / 2]
    e2cg_b_fg := [1 / 2]
    e2cg_b_ig := [1 / 2]
    e2cg_b_og := [1 / 2]
    e2cg_b_mc := [1 / 2]
    h2cg_w := [1 / 2]
    h_0 := [1 / 2]
    c_0 := [1 / 2]
    c2fg := [1 / 2]
    c2ig := [1 / 2]
    c2og := [1 / 2]
    h2e_w := [1 / 2]
    h2e_b := [1 / 2] }

/-! # Theorems -/

/-- C3: for every LSTM-2002 construction with `n_blk` blocks of width
`d_blk`, the four gate-slicing ranges are pairwise-disjoint contiguous
ranges that together cover exactly the `n_blk * (3 + d_blk)` positions of
the fused pre-activation vector, the candidate-memory range starts where
the output-gate range ends, and the ranges are the fixed functions of
`n_blk` and `d_blk` used at construction time. -/
theorem lstm2002_gate_ranges (n_blk d_blk : Nat) :
    (Disjoint (rangeSet (fgRange n_blk d_blk)) (rangeSet (igRange n_blk d_blk)) ∧
     Disjoint (rangeSet (fgRange n_blk d_blk)) (rangeSet (ogRange n_blk d_blk)) ∧
     Disjoint (rangeSet (fgRange n_blk d_blk)) (rangeSet (mcRange n_blk d_blk)) ∧
     Disjoint (rangeSet (igRange n_blk d_blk)) (rangeSet (ogRange n_blk d_blk)) ∧
     Disjoint (rangeSet (igRange n_blk d_blk)) (rangeSet (mcRange n_blk d_blk)) ∧
     Disjoint (rangeSet (ogRange n_blk d_blk)) (rangeSet (mcRange n_blk d_blk))) ∧
    (rangeSet (fgRange n_blk d_blk) ∪ rangeSet (igRange n_blk d_blk) ∪
      rangeSet (ogRange n_blk d_blk) ∪ rangeSet (mcRange n_blk d_blk)
      = Finset.Ico 0 (n_blk * (3 + d_blk))) ∧
    ((rangeSet (fgRange n_blk d_blk)).card + (rangeSet (igRange n_blk d_blk)).card +
      (rangeSet (ogRange n_blk d_blk)).card + (rangeSet (mcRange n_blk d_blk)).card
      = n_blk * (3 + d_blk)) ∧
    (mcRange n_blk d_blk).1 = (ogRange n_blk d_blk).2 := by
  have hexp : n_blk * (3 + d_blk) = 3 * n_blk + n_blk * d_blk := by ring
  refine ⟨⟨?_, ?_, ?_, ?_, ?_, ?_⟩, ?_, ?_, ?_⟩
  · simp only [rangeSet, fgRange, igRange, Finset.disjoint_left, Finset.mem_Ico]
    omega
  · simp only [rangeSet, fgRange, ogRange, Finset.disjoint_left, Finset.mem_Ico]
    omega
  · simp only [rangeSet, fgRange, mcRange, Finset.disjoint_left, Finset.mem_Ico]
    omega
  · simp only [rangeSet, igRange, ogRange, Finset.disjoint_left, Finset.mem_Ico]
    omega
  · simp only [rangeSet, igRange, mcRange, Finset.disjoint_left, Finset.mem_Ico]
    omega
  · simp only [rangeSet, ogRange, mcRange, Finset.disjoint_left, Finset.mem_Ico]
    omega
  · ext x
    simp only [rangeSet, fgRange, igRange, ogRange, mcRange, Finset.mem_union,
      Finset.mem_Ico, hexp]
    omega
  · simp only [rangeSet, fgRange, igRange, ogRange, mcRange, Nat.card_Ico, hexp]
    omega
  · rfl

/-- C4 counterexample: the claim asserts `len(pad_to_max(L, ids)) == L` for
every `ids` and `L`, but `pad_to_max` only appends padding, so an id
sequence already longer than the bound keeps its length; at `L = 1` and
`ids = [BOS_TKID, EOS_TKID]` the result has length 2. -/
theorem pad_to_max_length_counterexample :
    (pad_to_max 1 [BOS_TKID, EOS_TKID]).length ≠ 1 := by decide

/-- C4 (amended): `pad_to_max` returns a list of length
`max(L, len(ids))` — hence exactly `L` whenever `len(ids) ≤ L` — whose
first `min(L, len(ids))` entries are the corresponding prefix of `ids` and
whose appended tail consists of padding ids only; `trunc_to_max` returns
exactly the first `min(L, len(ids))` entries of `ids` and is therefore
never longer than `L`. -/
theorem pad_and_trunc_to_max_spec (L : Nat) (ids : List Nat) :
    (pad_to_max L ids).length = max L ids.length ∧
    (pad_to_max L ids).take (min L ids.length) = ids.take (min L ids.length) ∧
    (pad_to_max L ids).drop ids.length
      = List.replicate (L - ids.length) PAD_TKID ∧
    trunc_to_max L ids = ids.take (min L ids.length) ∧
    (trunc_to_max L ids).length ≤ L := by
  refine ⟨?_, ?_, ?_, ?_, ?_⟩
  · simp [pad_to_max]
    omega
  · have h : min L ids.length ≤ ids.length := Nat.min_le_right _ _
    simp [pad_to_max, List.take_append_of_le_length h]
  · simp [pad_to_max]
  · rcases Nat.le_total L ids.length with h | h
    · simp [trunc_to_max, Nat.min_eq_left h]
    · simp [trunc_to_max, Nat.min_eq_right h, List.take_of_length_le h]
  · simp [trunc_to_max]

/-- C1: the configuration-sync step does not make the namespaces field-wise
equal. The `store_true` flag `is_dset_in_memory` has type `bool`, so a
non-host rank reconstructs it as `bool(b'False')`, which is `True` (a
nonempty bytes value), while the host keeps `False`: on the docstring's
two-process run the synced rank-1 namespace disagrees with the host
namespace on that field, although every other non-identity field is synced
to the host's value. -/
theorem ddp_sync_bool_field_diverges :
    nsGet (syncArgs hostNs rank1Ns) "is_dset_in_memory"
      = some (PyVal.pyBool true) ∧
    nsGet hostNs "is_dset_in_memory" = some (PyVal.pyBool false) ∧
    nsGet (syncArgs hostNs rank1Ns) "is_dset_in_memory"
      ≠ nsGet hostNs "is_dset_in_memory" ∧
    ((syncArgs hostNs rank1Ns).filter
        (fun kv => !(kv.1 ∈ distArgsK || kv.1 == "is_dset_in_memory"))
      = hostNs.filter
        (fun kv => !(kv.1 ∈ distArgsK || kv.1 == "is_dset_in_memory"))) := by
  refine ⟨by decide, by decide, by decide, by decide⟩

theorem stepEvents_off_host (r c l s : Nat) (hr : r ≠ 0) :
    stepEvents r c l s = [] := by
  simp [stepEvents, hr]

theorem savedSteps_stepEvents_host (c l s : Nat) :
    savedSteps (stepEvents 0 c l s) = if s % c = 0 then [s] else [] := by
  by_cases h1 : s % c = 0 <;> by_cases h2 : s % l = 0 <;>
    simp [stepEvents, savedSteps, h1, h2]

theorem range_flatMap_epochSteps (E B : Nat) :
    (List.range E).flatMap (epochSteps B)
      = (List.range (E * B)).map (· + 1) := by
  induction E with
  | zero => simp
  | succ n ih =>
    rw [List.range_succ, List.flatMap_append, ih, Nat.succ_mul, List.range_add,
      List.map_append]
    simp [epochSteps, List.map_map]

theorem flatMap_ite_singleton_eq_filter (xs : List Nat) (c : Nat) :
    (xs.flatMap (fun s => if s % c = 0 then [s] else []))
      = xs.filter (fun s => s % c = 0) := by
  induction xs with
  | nil => rfl
  | cons x xs ih =>
    by_cases h : x % c = 0 <;> simp [List.filter_cons, h, ih]

/-- C7: throughout every run of the distributed training loop with a valid
checkpoint interval, a process whose rank is not 0 emits no checkpoint save
and no tensorboard scalar (its event trace is empty), while the rank-0
process saves checkpoints exactly at the global steps `1, ..., E*B` that
are multiples of `ckpt_step`, in order, followed by one final save keyed by
the last step count `E*B`. -/
theorem ddp_rank0_ckpt_log_discipline (c l E B : Nat) (hc : 1 ≤ c) :
    (∀ r, r ≠ 0 → ddpTrainLoop r c l E B = []) ∧
    savedSteps (ddpTrainLoop 0 c l E B)
      = ((List.range (E * B)).map (· + 1)).filter (fun s => s % c = 0)
        ++ [E * B] := by
  constructor
  · intro r hr
    simp only [ddpTrainLoop, if_neg hr, List.append_nil]
    rw [List.flatMap_eq_nil_iff]
    intro e _
    rw [List.flatMap_eq_nil_iff]
    intro s _
    exact stepEvents_off_host r c l s hr
  · simp only [ddpTrainLoop, if_pos rfl, savedSteps, List.filterMap_append,
      List.filterMap_flatMap]
    congr 1
    · rw [← range_flatMap_epochSteps E B]
      have heq :
          (List.range E).flatMap
            (fun e => (epochSteps B e).flatMap
              (fun s => List.filterMap
                (fun ev => match ev with
                  | TrainEvent.ckptSave n => some n
                  | _ => none) (stepEvents 0 c l s)))
          = (List.range E).flatMap
            (fun e => (epochSteps B e).flatMap
              (fun s => if s % c = 0 then [s] else [])) := by
        apply List.flatMap_congr
        intro e _
        apply List.flatMap_congr
        intro s _
        exact savedSteps_stepEvents_host c l s
      rw [heq, ← List.flatMap_assoc, flatMap_ite_singleton_eq_filter]

theorem exceptSeq_ok_iff (x y : Except String Unit) :
    exceptSeq x y = Except.ok () ↔ (x = Except.ok () ∧ y = Except.ok ()) := by
  cases x with
  | ok u => cases u; simp [exceptSeq]
  | error e => simp [exceptSeq]

theorem raiseIfWrongOrdered_ok_iff (vals : List Rat) (ns : List String) :
    raiseIfWrongOrdered vals ns = Except.ok () ↔ chainLeB vals = true := by
  by_cases h : chainLeB vals <;> simp [raiseIfWrongOrdered, h]

theorem validateDdpArgs_ok_iff (a : DdpArgs) (n : Int) :
    validateDdpArgs a n = Except.ok () ↔
      (1 ≤ a.batch_size ∧ 1 ≤ a.ckpt_step ∧ 1 ≤ a.log_step ∧ 0 ≤ a.max_norm ∧
       1 ≤ a.n_epoch ∧ 0 ≤ a.n_worker ∧ a.n_worker ≤ n ∧
       a.n_worker ≤ a.batch_size ∧ 0 ≤ a.world_size ∧ 0 ≤ a.local_rank ∧
       0 ≤ a.rank ∧ a.rank ≤ a.world_size - 1) := by
  simp only [validateDdpArgs, exceptSeq_ok_iff, raiseIfWrongOrdered_ok_iff,
    chainLeB, Bool.and_eq_true, decide_eq_true_eq, and_true]
  norm_cast
  tauto

/-- C8: `main` detects invalid numeric ordering constraints eagerly at
startup: whenever `batch_size < 1`, `ckpt_step < 1`, `log_step < 1`,
`max_norm < 0`, `n_epoch < 1`, `world_size < 0`, `local_rank < 0`, or
`rank` lies outside `[0, world_size - 1]`, the startup prefix raises a
fatal error and never reaches configuration saving or model
construction. -/
theorem ddp_validation_rejects_bad_args (a : DdpArgs) (n : Int)
    (h : a.batch_size < 1 ∨ a.ckpt_step < 1 ∨ a.log_step < 1 ∨
      a.max_norm < 0 ∨ a.n_epoch < 1 ∨ a.world_size < 0 ∨ a.local_rank < 0 ∨
      a.rank < 0 ∨ a.world_size - 1 < a.rank) :
    ∃ msg, ddpMainSetup a n = Except.error msg ∧
      ∀ steps, ddpMainSetup a n ≠ Except.ok steps := by
  cases hv : validateDdpArgs a n with
  | error e => exact ⟨e, by simp [ddpMainSetup, hv], by simp [ddpMainSetup, hv]⟩
  | ok u =>
    exfalso
    cases u
    rw [validateDdpArgs_ok_iff] at hv
    obtain ⟨h1, h2, h3, h4, h5, h6, h7, h8, h9, h10, h11, h12⟩ := hv
    rcases h with h | h | h | h | h | h | h | h | h
    · omega
    · omega
    · omega
    · linarith
    · omega
    · omega
    · omega
    · omega
    · omega

/-- C8 witness: a namespace with `batch_size = 0` is rejected. -/
theorem ddp_validation_rejects_bad_args_witness :
    exArgsBad.batch_size < 1 ∧
    (∃ msg, ddpMainSetup exArgsBad 8 = Except.error msg ∧
      ∀ steps, ddpMainSetup exArgsBad 8 ≠ Except.ok steps) :=
  ⟨by decide,
   ddp_validation_rejects_bad_args exArgsBad 8 (Or.inl (by decide))⟩

/-- C9: the per-rank `DataLoader` batch size is the floor of
`batch_size / world_size`; when `world_size` does not divide `batch_size`
the effective global batch (per-rank size times world size) is strictly
smaller than the configured one, and when `batch_size < world_size` the
per-rank batch size is 0 — and the validation step accepts configurations
with either property. -/
theorem ddp_per_rank_batch_size (a : DdpArgs)
    (h1 : 1 ≤ a.batch_size) (h2 : 1 ≤ a.world_size) :
    dataLoaderBatchSize a = a.batch_size / a.world_size ∧
    (¬ a.world_size ∣ a.batch_size →
      dataLoaderBatchSize a * a.world_size < a.batch_size) ∧
    (a.batch_size < a.world_size → dataLoaderBatchSize a = 0) ∧
    (∃ n, validateDdpArgs exArgsSmallBatch n = Except.ok () ∧
      exArgsSmallBatch.batch_size < exArgsSmallBatch.world_size ∧
      dataLoaderBatchSize exArgsSmallBatch = 0) ∧
    (∃ n, validateDdpArgs exArgsUneven n = Except.ok () ∧
      ¬ exArgsUneven.world_size ∣ exArgsUneven.batch_size ∧
      dataLoaderBatchSize exArgsUneven * exArgsUneven.world_size
        < exArgsUneven.batch_size) := by
  have hws : (0 : Int) < a.world_size := by omega
  have hfd : dataLoaderBatchSize a = a.batch_size / a.world_size :=
    Int.fdiv_eq_ediv _ (le_of_lt hws)
  refine ⟨hfd, ?_, ?_, ?_, ?_⟩
  · intro hdvd
    have hmod : a.batch_size % a.world_size ≠ 0 := by
      rwa [Ne, ← Int.dvd_iff_emod_eq_zero]
    have h0 : 0 ≤ a.batch_size % a.world_size :=
      Int.emod_nonneg _ (ne_of_gt hws)
    have heq : a.world_size * (a.batch_size / a.world_size)
        + a.batch_size % a.world_size = a.batch_size :=
      Int.ediv_add_emod _ _
    have hpos : 0 < a.batch_size % a.world_size :=
      lt_of_le_of_ne h0 (Ne.symm hmod)
    rw [hfd, mul_comm]
    linarith [heq]
  · intro hlt
    rw [hfd]
    exact Int.ediv_eq_zero_of_lt (by omega) hlt
  · exact ⟨8, (validateDdpArgs_ok_iff _ _).mpr (by decide), by decide, by decide⟩
  · refine ⟨8, (validateDdpArgs_ok_iff _ _).mpr (by decide), ?_, by decide⟩
    decide

/-- C9 witness: at the accepted configuration with `batch_size = 2` and
`world_size = 4` the per-rank batch size is 0. -/
theorem ddp_per_rank_batch_size_witness :
    1 ≤ exArgsSmallBatch.batch_size ∧ 1 ≤ exArgsSmallBatch.world_size ∧
    dataLoaderBatchSize exArgsSmallBatch = 0 :=
  ⟨by decide, by decide,
   (ddp_per_rank_batch_size exArgsSmallBatch (by decide) (by decide)).2.2.1
     (by decide)⟩

/-- C7 witness: with `ckpt_step = 2`, `log_step = 1`, one epoch of three
batches, rank 1 emits nothing and rank 0 saves at steps 2 and 3. -/
theorem ddp_rank0_ckpt_log_discipline_witness :
    1 ≤ 2 ∧
    ((∀ r, r ≠ 0 → ddpTrainLoop r 2 1 1 3 = []) ∧
      savedSteps (ddpTrainLoop 0 2 1 1 3)
        = ((List.range (1 * 3)).map (· + 1)).filter (fun s => s % 2 = 0)
          ++ [1 * 3]) :=
  ⟨by decide, ddp_rank0_ckpt_log_discipline 2 1 1 3 (by decide)⟩

theorem charToLower_eq_of_upper (c : Char)
    (h : 65 ≤ c.toNat ∧ c.toNat ≤ 90) :
    c.toLower = Char.ofNat (c.toNat + 32) := by
  show (if c.toNat ≥ 65 ∧ c.toNat ≤ 90 then Char.ofNat (c.toNat + 32) else c)
    = Char.ofNat (c.toNat + 32)
  rw [if_pos h]

theorem charToLower_eq_of_not_upper (c : Char)
    (h : ¬(65 ≤ c.toNat ∧ c.toNat ≤ 90)) : c.toLower = c := by
  show (if c.toNat ≥ 65 ∧ c.toNat ≤ 90 then Char.ofNat (c.toNat + 32) else c)
    = c
  rw [if_neg h]

theorem toNat_charOfNat_add32 (n : Nat) (h65 : 65 ≤ n) (h90 : n ≤ 90) :
    (Char.ofNat (n + 32)).toNat = n + 32 := by
  have hv : Nat.isValidChar (n + 32) := by
    left
    omega
  rw [Char.ofNat, dif_pos hv]
  simp [Char.ofNatAux, Char.toNat, UInt32.toNat]

theorem charToLower_idem (c : Char) : c.toLower.toLower = c.toLower := by
  by_cases h : 65 ≤ c.toNat ∧ c.toNat ≤ 90
  · rw [charToLower_eq_of_upper c h]
    have ht : (Char.ofNat (c.toNat + 32)).toNat = c.toNat + 32 :=
      toNat_charOfNat_add32 c.toNat h.1 h.2
    apply charToLower_eq_of_not_upper
    rw [ht]
    omega
  · rw [charToLower_eq_of_not_upper c h, charToLower_eq_of_not_upper c h]

theorem isWs_iff_toNat (c : Char) :
    isWs c = true ↔
      (c.toNat = 32 ∨ c.toNat = 9 ∨ c.toNat = 13 ∨ c.toNat = 10) := by
  constructor
  · intro h
    simp only [isWs, Char.isWhitespace, Bool.or_eq_true, decide_eq_true_eq] at h
    rcases h with ((h | h) | h) | h <;> subst h <;> simp [Char.toNat]
  · intro h
    have hc : c = ' ' ∨ c = '\t' ∨ c = '\x0d' ∨ c = '\n' := by
      rcases h with h | h | h | h
      · left
        apply Char.eq_of_val_eq
        apply UInt32.ext
        exact h
      · right; left
        apply Char.eq_of_val_eq
        apply UInt32.ext
        exact h
      · right; right; left
        apply Char.eq_of_val_eq
        apply UInt32.ext
        exact h
      · right; right; right
        apply Char.eq_of_val_eq
        apply UInt32.ext
        exact h
    rcases hc with h | h | h | h <;> subst h <;> decide

theorem isWs_charToLower (c : Char) : isWs c.toLower = isWs c := by
  by_cases h : 65 ≤ c.toNat ∧ c.toNat ≤ 90
  · rw [charToLower_eq_of_upper c h]
    have ht : (Char.ofNat (c.toNat + 32)).toNat = c.toNat + 32 :=
      toNat_charOfNat_add32 c.toNat h.1 h.2
    have h1 : isWs (Char.ofNat (c.toNat + 32)) = false := by
      rw [← Bool.not_eq_true]
      intro hw
      rw [isWs_iff_toNat, ht] at hw
      omega
    have h2 : isWs c = false := by
      rw [← Bool.not_eq_true]
      intro hw
      rw [isWs_iff_toNat] at hw
      omega
    rw [h1, h2]
  · rw [charToLower_eq_of_not_upper c h]

theorem lowChar_idem (u : Bool) (c : Char) :
    lowChar u (lowChar u c) = lowChar u c := by
  cases u <;> simp [lowChar, charToLower_idem]

theorem isWs_lowChar (u : Bool) (c : Char) : isWs (lowChar u c) = isWs c := by
  cases u <;> simp [lowChar, isWs_charToLower]

theorem lowTok_idem (u : Bool) (t : List Char) :
    lowTok u (lowTok u t) = lowTok u t := by
  simp only [lowTok, List.map_map]
  exact List.map_congr_left (fun c _ => lowChar_idem u c)

theorem joinSpace_nil : joinSpace [] = [] := by
  simp [joinSpace, List.intercalate]

theorem joinSpace_single (t : List Char) : joinSpace [t] = t := by
  simp [joinSpace, List.intercalate]

theorem joinSpace_cons_cons (t t2 : List Char) (ts : List (List Char)) :
    joinSpace (t :: t2 :: ts) = t ++ ' ' :: joinSpace (t2 :: ts) := by
  simp [joinSpace, List.intercalate, List.intersperse]

theorem lowTok_joinSpace (u : Bool) (ts : List (List Char)) :
    lowTok u (joinSpace ts) = joinSpace (ts.map (lowTok u)) := by
  induction ts with
  | nil => simp [joinSpace_nil, lowTok]
  | cons t ts ih =>
    cases ts with
    | nil => simp [joinSpace_single, lowTok]
    | cons t2 ts2 =>
      have hsp : lowChar u ' ' = ' ' := by cases u <;> decide
      rw [joinSpace_cons_cons, List.map_cons, List.map_cons, joinSpace_cons_cons,
        ← List.map_cons (lowTok u) t2 ts2, ← ih]
      simp [lowTok, hsp]

theorem splitState_inv (cs : List Char) :
    (∀ c ∈ (cs.foldr splitStep ([], [])).1, isWs c = false) ∧
    (∀ t ∈ (cs.foldr splitStep ([], [])).2,
      t ≠ [] ∧ ∀ c ∈ t, isWs c = false) := by
  induction cs with
  | nil => simp
  | cons c cs ih =>
    rw [List.foldr_cons]
    by_cases h : isWs c
    · simp only [splitStep, if_pos h]
      refine ⟨by simp, ?_⟩
      intro t ht
      simp only [flushTok] at ht
      by_cases hcur : (cs.foldr splitStep ([], [])).1 = []
      · rw [if_pos hcur] at ht
        exact ih.2 t ht
      · rw [if_neg hcur] at ht
        rcases List.mem_cons.1 ht with rfl | ht
        · exact ⟨hcur, ih.1⟩
        · exact ih.2 t ht
    · simp only [splitStep, if_neg h]
      refine ⟨?_, ih.2⟩
      intro c' hc'
      rcases List.mem_cons.1 hc' with rfl | hc'
      · simpa using h
      · exact ih.1 c' hc'

theorem mem_splitTokens (cs : List Char) (t : List Char)
    (h : t ∈ splitTokens cs) : t ≠ [] ∧ ∀ c ∈ t, isWs c = false := by
  have hinv := splitState_inv cs
  simp only [splitTokens, flushTok] at h
  by_cases hcur : (cs.foldr splitStep ([], [])).1 = []
  · rw [if_pos hcur] at h
    exact hinv.2 t h
  · rw [if_neg hcur] at h
    rcases List.mem_cons.1 h with rfl | h
    · exact ⟨hcur, hinv.1⟩
    · exact hinv.2 t h

theorem splitTokens_all_ws (cs : List Char) (h : ∀ c ∈ cs, isWs c = true) :
    splitTokens cs = [] := by
  have hst : cs.foldr splitStep ([], []) = ([], []) := by
    induction cs with
    | nil => rfl
    | cons c cs ih =>
      rw [List.foldr_cons, ih (fun c' hc' => h c' (List.mem_cons_of_mem c hc'))]
      simp [splitStep, h c (List.mem_cons_self _ _), flushTok]
  simp [splitTokens, hst, flushTok]

theorem foldr_splitStep_wsfree (t : List Char)
    (h : ∀ c ∈ t, isWs c = false) (st : List Char × List (List Char)) :
    t.foldr splitStep st = (t ++ st.1, st.2) := by
  induction t with
  | nil => simp
  | cons c t ih =>
    rw [List.foldr_cons, ih (fun c' hc' => h c' (List.mem_cons_of_mem c hc'))]
    simp [splitStep, h c (List.mem_cons_self _ _)]

theorem foldr_splitStep_join (t : List Char) (ts : List (List Char))
    (h : ∀ x ∈ t :: ts, x ≠ [] ∧ ∀ c ∈ x, isWs c = false) :
    (joinSpace (t :: ts)).foldr splitStep ([], []) = (t, ts) := by
  induction ts generalizing t with
  | nil =>
    rw [joinSpace_single, foldr_splitStep_wsfree t (h t (List.mem_cons_self _ _)).2]
    simp
  | cons t2 ts2 ih =>
    rw [joinSpace_cons_cons, List.foldr_append, List.foldr_cons]
    have h2 : ∀ x ∈ t2 :: ts2, x ≠ [] ∧ ∀ c ∈ x, isWs c = false := by
      intro x hx
      exact h x (List.mem_cons_of_mem t hx)
    rw [ih t2 h2]
    have hsp : splitStep ' ' (t2, ts2) = ([], t2 :: ts2) := by
      simp [splitStep, isWs, flushTok, (h2 t2 (List.mem_cons_self _ _)).1]
    rw [hsp, foldr_splitStep_wsfree t (h t (List.mem_cons_self _ _)).2]
    simp

theorem splitTokens_joinSpace (ts : List (List Char))
    (h : ∀ x ∈ ts, x ≠ [] ∧ ∀ c ∈ x, isWs c = false) :
    splitTokens (joinSpace ts) = ts := by
  cases ts with
  | nil => simp [joinSpace_nil, splitTokens, flushTok]
  | cons t rest =>
    rw [splitTokens, foldr_splitStep_join t rest h]
    simp [flushTok, (h t (List.mem_cons_self _ _)).1]

theorem foldr_reStep_wsfree (t : List Char) (h : ∀ c ∈ t, isWs c = false)
    (st : List Char × Bool × List (List Char)) :
    t.foldr reStep st = (t ++ st.1, (if t = [] then st.2.1 else false), st.2.2) := by
  induction t with
  | nil => simp
  | cons c t ih =>
    rw [List.foldr_cons, ih (fun c' hc' => h c' (List.mem_cons_of_mem c hc'))]
    simp [reStep, h c (List.mem_cons_self _ _)]

theorem foldr_reStep_join (t : List Char) (ts : List (List Char))
    (h : ∀ x ∈ t :: ts, x ≠ [] ∧ ∀ c ∈ x, isWs c = false) :
    (joinSpace (t :: ts)).foldr reStep ([], false, []) = (t, false, ts) := by
  induction ts generalizing t with
  | nil =>
    rw [joinSpace_single, foldr_reStep_wsfree t (h t (List.mem_cons_self _ _)).2]
    simp [(h t (List.mem_cons_self _ _)).1]
  | cons t2 ts2 ih =>
    rw [joinSpace_cons_cons, List.foldr_append, List.foldr_cons]
    have h2 : ∀ x ∈ t2 :: ts2, x ≠ [] ∧ ∀ c ∈ x, isWs c = false := by
      intro x hx
      exact h x (List.mem_cons_of_mem t hx)
    rw [ih t2 h2]
    have hsp : reStep ' ' (t2, false, ts2) = ([], true, t2 :: ts2) := by
      simp [reStep, isWs]
    rw [hsp, foldr_reStep_wsfree t (h t (List.mem_cons_self _ _)).2]
    simp [(h t (List.mem_cons_self _ _)).1]

theorem reSplitWs_joinSpace (ts : List (List Char)) (hne : ts ≠ [])
    (h : ∀ x ∈ ts, x ≠ [] ∧ ∀ c ∈ x, isWs c = false) :
    reSplitWs (joinSpace ts) = ts := by
  cases ts with
  | nil => exact absurd rfl hne
  | cons t rest =>
    rw [reSplitWs, foldr_reStep_join t rest h]

theorem tknz_eq_splitTokens (u : Bool) (txt : List Char) :
    tknz u txt = (splitTokens txt).map (lowTok u) := by
  have hgood : ∀ x ∈ (splitTokens txt).map (lowTok u),
      x ≠ [] ∧ ∀ c ∈ x, isWs c = false := by
    intro x hx
    rcases List.mem_map.1 hx with ⟨t, ht, rfl⟩
    have hT := mem_splitTokens txt t ht
    refine ⟨?_, ?_⟩
    · intro hnil
      exact hT.1 (List.map_eq_nil_iff.1 hnil)
    · intro c hc
      rcases List.mem_map.1 hc with ⟨c0, hc0, rfl⟩
      rw [isWs_lowChar]
      exact hT.2 c0 hc0
  have hnorm : BaseTknzr.norm u txt = joinSpace ((splitTokens txt).map (lowTok u)) := by
    rw [BaseTknzr.norm, lowTok_joinSpace]
  cases hts : (splitTokens txt).map (lowTok u) with
  | nil =>
    rw [tknz, hnorm, hts, joinSpace_nil]
    rfl
  | cons t rest =>
    rw [tknz, hnorm, hts, reSplitWs_joinSpace (t :: rest) (by simp)
      (hts ▸ hgood)]
    have hne : (t :: rest) ≠ [[]] := by
      intro hcontra
      have : t = [] := by
        injection hcontra with h1 _
      exact ((hts ▸ hgood) t (List.mem_cons_self _ _)).1 this
    rw [if_neg hne]

theorem norm_joinSpace_good (u : Bool) (ts : List (List Char))
    (h : ∀ x ∈ ts, x ≠ [] ∧ ∀ c ∈ x, isWs c = false) :
    BaseTknzr.norm u (joinSpace ts) = joinSpace (ts.map (lowTok u)) := by
  rw [BaseTknzr.norm, splitTokens_joinSpace ts h, lowTok_joinSpace]

theorem lowTok_bosTk (u : Bool) : lowTok u bosTk = bosTk := by
  cases u <;> decide

theorem lowTok_eosTk (u : Bool) : lowTok u eosTk = eosTk := by
  cases u <;> decide

/-- C10: for every string consisting only of whitespace characters
(including the empty string), both whitespace tokenizers return the empty
token list — never a list containing an empty token — so encoding such a
string yields exactly `[bos_id, eos_id]`. The abstract NFKC normalization
of the dict tokenizer is only assumed to keep whitespace-only strings
whitespace-only, which holds of real NFKC. -/
theorem ws_only_text_tokenizes_empty (nfkc : List Char → List Char)
    (hn : ∀ t, t.all isWs = true → (nfkc t).all isWs = true)
    (u : Bool) (s : List Char) (hs : s.all isWs = true) :
    tknz u s = [] ∧ tokenizeDict nfkc u s = [] ∧
    ∀ V : Vocab, enc V u s = [BOS_TKID, EOS_TKID] := by
  have hsw : ∀ c ∈ s, isWs c = true := by
    simpa [List.all_eq_true] using hs
  have htk : tknz u s = [] := by
    rw [tknz_eq_splitTokens, splitTokens_all_ws s hsw]
    rfl
  refine ⟨htk, ?_, ?_⟩
  · have h1 : ∀ c ∈ (if u then (nfkc s).map Char.toLower else nfkc s),
        isWs c = true := by
      have hn' : ∀ c ∈ nfkc s, isWs c = true := by
        simpa [List.all_eq_true] using hn s hs
      cases u
      · simpa using hn'
      · simp only [if_pos rfl]
        intro c hc
        rcases List.mem_map.1 hc with ⟨c0, hc0, rfl⟩
        rw [show Char.toLower c0 = lowChar true c0 from rfl, isWs_lowChar]
        exact hn' c0 hc0
    have h2 : stripWs (if u then (nfkc s).map Char.toLower else nfkc s) = [] := by
      rw [stripWs, List.dropWhile_eq_nil_iff.2 h1]
      rfl
    rw [tokenizeDict]
    simp [h2]
  · intro V
    simp [enc, htk]

/-- C10 witness: the tab-space string with identity NFKC. -/
theorem ws_only_text_tokenizes_empty_witness :
    (∀ t : List Char, t.all isWs = true → (id t).all isWs = true) ∧
    (" \t ".toList.all isWs = true) ∧
    (tknz true (" \t ".toList) = [] ∧ tokenizeDict id true (" \t ".toList) = [] ∧
      ∀ V : Vocab, enc V true (" \t ".toList) = [BOS_TKID, EOS_TKID]) :=
  ⟨fun _ h => h, by decide,
   ws_only_text_tokenizes_empty id (fun _ h => h) true (" \t ".toList) (by decide)⟩

/-- C6: encoding normalizes (lowercasing when `is_uncased` is set), splits
into whitespace-run tokens, maps each token to its id substituting the
unknown-token id for every out-of-vocabulary token, and wraps the result
with the begin-of-sequence id in front and the end-of-sequence id at the
back; encoding the empty string yields exactly `[bos_id, eos_id]` for every
vocabulary. The concrete vectors are those of the repository's encode
tests. -/
theorem ws_enc_wraps_and_substitutes :
    (∀ (V : Vocab) (u : Bool), enc V u [] = [BOS_TKID, EOS_TKID]) ∧
    (∀ (V : Vocab) (u : Bool) (txt : List Char),
      (enc V u txt).head? = some BOS_TKID ∧
      (enc V u txt).getLast? = some EOS_TKID) ∧
    (∀ (V : Vocab) (u : Bool) (txt : List Char) (tk : List Char),
      tk ∈ tknz u txt → lookupTkId V tk = none → UNK_TKID ∈ enc V u txt) ∧
    enc testVocab true ("a b c".toList) = [0, 4, 5, 6, 1] ∧
    enc testVocab true ("A B C".toList) = [0, 4, 5, 6, 1] ∧
    enc testVocab true ("1 2 3".toList) = [0, 7, 8, 3, 1] ∧
    enc testVocab true ("哈 囉 世 界".toList) = [0, 9, 3, 3, 3, 1] ∧
    enc testVocab true ("[bos] [eos] [pad] [unk]".toList) = [0, 0, 1, 2, 3, 1] := by
  refine ⟨?_, ?_, ?_, by decide, by decide, by decide, by decide, by decide⟩
  · intro V u
    have htk : tknz u [] = [] := by
      rw [tknz_eq_splitTokens]
      rfl
    simp [enc, htk]
  · intro V u txt
    constructor
    · simp [enc]
    · simp only [enc, ← List.cons_append, List.getLast?_append]
      rfl
  · intro V u txt tk htk hnone
    have hmem : UNK_TKID ∈ (tknz u txt).map
        (fun tk => (lookupTkId V tk).getD UNK_TKID) :=
      List.mem_map.2 ⟨tk, htk, by simp [hnone]⟩
    simp only [enc, List.mem_cons, List.mem_append]
    tauto

/-- C5 counterexample: with the test vocabulary, decoding the encoding of
`"a b c"` keeps the begin/end special tokens, so the decoded text's token
sequence is `["[bos]", "a", "b", "c", "[eos]"]`, not the original
`["a", "b", "c"]`. -/
theorem ws_dec_enc_counterexample :
    tknz true (dec testVocab true (enc testVocab true ("a b c".toList)))
      ≠ tknz true ("a b c".toList) ∧
    tknz true (dec testVocab true (enc testVocab true ("a b c".toList)))
      = [bosTk, "a".toList, "b".toList, "c".toList, eosTk] := by
  refine ⟨by decide, by decide⟩

/-- C5 (amended): for a vocabulary whose inverse lookup returns the begin
and end tokens on their ids and for text whose tokens all round-trip
through the vocabulary, `decode(encode(text))` reconstructs the original
token sequence wrapped between the begin and end tokens: the token sequence
of the decoded text equals `[bos_tk]` followed by the original tokens
followed by `[eos_tk]`. -/
theorem ws_dec_enc_roundtrip_amended (V : Vocab) (u : Bool) (txt : List Char)
    (hbos : lookupIdTk V BOS_TKID = some bosTk)
    (heos : lookupIdTk V EOS_TKID = some eosTk)
    (hv : vocabRoundtrips V u txt = true) :
    tknz u (dec V u (enc V u txt)) = bosTk :: tknz u txt ++ [eosTk] := by
  rw [vocabRoundtrips, List.all_eq_true] at hv
  have htoks : ∀ t ∈ tknz u txt,
      t ≠ [] ∧ (∀ c ∈ t, isWs c = false) ∧ lowTok u t = t := by
    intro t ht
    have ht' := ht
    rw [tknz_eq_splitTokens] at ht'
    rcases List.mem_map.1 ht' with ⟨t0, ht0, rfl⟩
    have h0 := mem_splitTokens txt t0 ht0
    refine ⟨fun hnil => h0.1 (List.map_eq_nil_iff.1 hnil), ?_, lowTok_idem u t0⟩
    intro c hc
    rcases List.mem_map.1 hc with ⟨c0, hc0, rfl⟩
    rw [isWs_lowChar]
    exact h0.2 c0 hc0
  have hroundtrip : ∀ t ∈ tknz u txt,
      (lookupIdTk V ((lookupTkId V t).getD UNK_TKID)).getD unkTk = t := by
    intro t ht
    have hvt := hv t ht
    cases hl : lookupTkId V t with
    | none => rw [hl] at hvt; simp at hvt
    | some i =>
      rw [hl] at hvt
      simp only [beq_iff_eq] at hvt
      simp [hl, hvt]
  have h1 : (lookupIdTk V BOS_TKID).getD unkTk = bosTk := by
    rw [hbos]
    rfl
  have h2 : (lookupIdTk V EOS_TKID).getD unkTk = eosTk := by
    rw [heos]
    rfl
  have hmap : (enc V u txt).map (fun i => (lookupIdTk V i).getD unkTk)
      = bosTk :: tknz u txt ++ [eosTk] := by
    rw [enc]
    simp only [List.map_cons, List.map_append, List.map_map, List.map_nil,
      Function.comp_def]
    rw [h1, h2,
      (List.map_congr_left (fun t ht => hroundtrip t ht) :
        _ = List.map (fun t => t) (tknz u txt)), List.map_id']
  have hgoodT : ∀ x ∈ bosTk :: tknz u txt ++ [eosTk],
      x ≠ [] ∧ ∀ c ∈ x, isWs c = false := by
    intro x hx
    rcases List.mem_cons.1 hx with rfl | hx
    · exact ⟨by decide, by decide⟩
    · rcases List.mem_append.1 hx with hx | hx
      · exact ⟨(htoks x hx).1, (htoks x hx).2.1⟩
      · rw [List.mem_singleton.1 hx]
        exact ⟨by decide, by decide⟩
  have hlowT : (bosTk :: tknz u txt ++ [eosTk]).map (lowTok u)
      = bosTk :: tknz u txt ++ [eosTk] := by
    simp only [List.map_cons, List.map_append, List.map_nil, lowTok_bosTk,
      lowTok_eosTk]
    congr 2
    exact (List.map_congr_left (fun t ht => (htoks t ht).2.2)).trans
      (List.map_id' _)
  have hdec : dec V u (enc V u txt)
      = joinSpace (bosTk :: tknz u txt ++ [eosTk]) := by
    rw [dec, hmap, dtknz, norm_joinSpace_good u _ hgoodT, hlowT]
  rw [hdec, tknz_eq_splitTokens, splitTokens_joinSpace _ hgoodT]
  exact hlowT

/-- C5 witness: the amended round trip at the test vocabulary on
`"a b c"`. -/
theorem ws_dec_enc_roundtrip_amended_witness :
    lookupIdTk testVocab BOS_TKID = some bosTk ∧
    lookupIdTk testVocab EOS_TKID = some eosTk ∧
    vocabRoundtrips testVocab true ("a b c".toList) = true ∧
    tknz true (dec testVocab true (enc testVocab true ("a b c".toList)))
      = bosTk :: tknz true ("a b c".toList) ++ [eosTk] :=
  ⟨by decide, by decide, by decide,
   ws_dec_enc_roundtrip_amended testVocab true ("a b c".toList)
     (by decide) (by decide) (by decide)⟩

theorem invSqrtDim_nonneg (d h : Nat) : 0 ≤ invSqrtDim d h := by
  unfold invSqrtDim
  positivity

theorem drawSym_mem (b u : Real) (hb : 0 ≤ b) (h0 : 0 ≤ u) (h1 : u ≤ 1) :
    -b ≤ drawSym b u ∧ drawSym b u ≤ b := by
  unfold drawSym
  constructor <;> nlinarith

theorem drawNonneg_mem (b u : Real) (hb : 0 ≤ b) (h0 : 0 ≤ u) (h1 : u ≤ 1) :
    0 ≤ drawNonneg b u ∧ drawNonneg b u ≤ b := by
  unfold drawNonneg
  constructor
  · exact mul_nonneg h0 hb
  · nlinarith

theorem drawNonpos_mem (b u : Real) (hb : 0 ≤ b) (h0 : 0 ≤ u) (h1 : u ≤ 1) :
    -b ≤ drawNonpos b u ∧ drawNonpos b u ≤ 0 := by
  unfold drawNonpos
  constructor
  · nlinarith
  · exact neg_nonpos_of_nonneg (mul_nonneg h0 hb)

theorem entriesIn_map (l : List Real) (f : Real → Real) (lo hi : Real)
    (h : ∀ v ∈ l, 0 ≤ v ∧ v ≤ 1)
    (hf : ∀ v, 0 ≤ v → v ≤ 1 → lo ≤ f v ∧ f v ≤ hi) :
    entriesIn (l.map f) lo hi := by
  intro x hx
  rcases List.mem_map.1 hx with ⟨v, hv, rfl⟩
  exact hf v (h v hv).1 (h v hv).2

/-- C2: on construction of the LSTM-2002 model, every learnable
parameter entry lies within plus/minus
`1 / sqrt(max(d_emb, n_blk * d_blk))`, every forget-gate bias entry is
non-negative and every input-gate and output-gate bias entry is
non-positive, for all `[0, 1]` samples driving the uniform draws. -/
theorem lstm2002_init_bounds (d_emb n_blk d_blk : Nat)
    (ds : LSTM2002Draws) (hds : DrawsIn01 ds) :
    entriesIn (lstm2002Init d_emb n_blk d_blk ds).emb (-(invSqrtDim d_emb (n_blk * d_blk))) (invSqrtDim d_emb (n_blk * d_blk)) ∧
    entriesIn (lstm2002Init d_emb n_blk d_blk ds).e2cg_w (-(invSqrtDim d_emb (n_blk * d_blk))) (invSqrtDim d_emb (n_blk * d_blk)) ∧
    entriesIn (lstm2002Init d_emb n_blk d_blk ds).e2cg_b_fg (-(invSqrtDim d_emb (n_blk * d_blk))) (invSqrtDim d_emb (n_blk * d_blk)) ∧
    entriesIn (lstm2002Init d_emb n_blk d_blk ds).e2cg_b_ig (-(invSqrtDim d_emb (n_blk * d_blk))) (invSqrtDim d_emb (n_blk * d_blk)) ∧
    entriesIn (lstm2002Init d_emb n_blk d_blk ds).e2cg_b_og (-(invSqrtDim d_emb (n_blk * d_blk))) (invSqrtDim d_emb (n_blk * d_blk)) ∧
    entriesIn (lstm2002Init d_emb n_blk d_blk ds).e2cg_b_mc (-(invSqrtDim d_emb (n_blk * d_blk))) (invSqrtDim d_emb (n_blk * d_blk)) ∧
    entriesIn (lstm2002Init d_emb n_blk d_blk ds).h2cg_w (-(invSqrtDim d_emb (n_blk * d_blk))) (invSqrtDim d_emb (n_blk * d_blk)) ∧
    entriesIn (lstm2002Init d_emb n_blk d_blk ds).h_0 (-(invSqrtDim d_emb (n_blk * d_blk))) (invSqrtDim d_emb (n_blk * d_blk)) ∧
    entriesIn (lstm2002Init d_emb n_blk d_blk ds).c_0 (-(invSqrtDim d_emb (n_blk * d_blk))) (invSqrtDim d_emb (n_blk * d_blk)) ∧
    entriesIn (lstm2002Init d_emb n_blk d_blk ds).c2fg (-(invSqrtDim d_emb (n_blk * d_blk))) (invSqrtDim d_emb (n_blk * d_blk)) ∧
    entriesIn (lstm2002Init d_emb n_blk d_blk ds).c2ig (-(invSqrtDim d_emb (n_blk * d_blk))) (invSqrtDim d_emb (n_blk * d_blk)) ∧
    entriesIn (lstm2002Init d_emb n_blk d_blk ds).c2og (-(invSqrtDim d_emb (n_blk * d_blk))) (invSqrtDim d_emb (n_blk * d_blk)) ∧
    entriesIn (lstm2002Init d_emb n_blk d_blk ds).h2e_w (-(invSqrtDim d_emb (n_blk * d_blk))) (invSqrtDim d_emb (n_blk * d_blk)) ∧
    entriesIn (lstm2002Init d_emb n_blk d_blk ds).h2e_b (-(invSqrtDim d_emb (n_blk * d_blk))) (invSqrtDim d_emb (n_blk * d_blk)) ∧
    entriesIn (lstm2002Init d_emb n_blk d_blk ds).e2cg_b_fg 0 (invSqrtDim d_emb (n_blk * d_blk)) ∧
    entriesIn (lstm2002Init d_emb n_blk d_blk ds).e2cg_b_ig (-(invSqrtDim d_emb (n_blk * d_blk))) 0 ∧
    entriesIn (lstm2002Init d_emb n_blk d_blk ds).e2cg_b_og (-(invSqrtDim d_emb (n_blk * d_blk))) 0 := by
  have hb : 0 ≤ invSqrtDim d_emb (n_blk * d_blk) := invSqrtDim_nonneg _ _
  refine ⟨?_, ?_, ?_, ?_, ?_, ?_, ?_, ?_, ?_, ?_, ?_, ?_, ?_, ?_, ?_, ?_, ?_⟩
  · exact entriesIn_map ds.emb _ _ _ (hds.emb01) (fun v h0 h1 => drawSym_mem _ v hb h0 h1)
  · exact entriesIn_map ds.e2cg_w _ _ _ (hds.e2cg_w01) (fun v h0 h1 => drawSym_mem _ v hb h0 h1)
  · exact entriesIn_map ds.e2cg_b_fg _ _ _ (hds.e2cg_b_fg01) (fun v h0 h1 => ⟨le_trans (neg_nonpos_of_nonneg hb) (drawNonneg_mem _ v hb h0 h1).1, (drawNonneg_mem _ v hb h0 h1).2⟩)
  · exact entriesIn_map ds.e2cg_b_ig _ _ _ (hds.e2cg_b_ig01) (fun v h0 h1 => ⟨(drawNonpos_mem _ v hb h0 h1).1, le_trans (drawNonpos_mem _ v hb h0 h1).2 hb⟩)
  · exact entriesIn_map ds.e2cg_b_og _ _ _ (hds.e2cg_b_og01) (fun v h0 h1 => ⟨(drawNonpos_mem _ v hb h0 h1).1, le_trans (drawNonpos_mem _ v hb h0 h1).2 hb⟩)
  · exact entriesIn_map ds.e2cg_b_mc _ _ _ (hds.e2cg_b_mc01) (fun v h0 h1 => drawSym_mem _ v hb h0 h1)
  · exact entriesIn_map ds.h2cg_w _ _ _ (hds.h2cg_w01) (fun v h0 h1 => drawSym_mem _ v hb h0 h1)
  · exact entriesIn_map ds.h_0 _ _ _ (hds.h_001) (fun v h0 h1 => drawSym_mem _ v hb h0 h1)
  · exact entriesIn_map ds.c_0 _ _ _ (hds.c_001) (fun v h0 h1 => drawSym_mem _ v hb h0 h1)
  · exact entriesIn_map ds.c2fg _ _ _ (hds.c2fg01) (fun v h0 h1 => drawSym_mem _ v hb h0 h1)
  · exact entriesIn_map ds.c2ig _ _ _ (hds.c2ig01) (fun v h0 h1 => drawSym_mem _ v hb h0 h1)
  · exact entriesIn_map ds.c2og _ _ _ (hds.c2og01) (fun v h0 h1 => drawSym_mem _ v hb h0 h1)
  · exact entriesIn_map ds.h2e_w _ _ _ (hds.h2e_w01) (fun v h0 h1 => drawSym_mem _ v hb h0 h1)
  · exact entriesIn_map ds.h2e_b _ _ _ (hds.h2e_b01) (fun v h0 h1 => drawSym_mem _ v hb h0 h1)
  · exact entriesIn_map ds.e2cg_b_fg _ _ _ (hds.e2cg_b_fg01) (fun v h0 h1 => drawNonneg_mem _ v hb h0 h1)
  · exact entriesIn_map ds.e2cg_b_ig _ _ _ (hds.e2cg_b_ig01) (fun v h0 h1 => drawNonpos_mem _ v hb h0 h1)
  · exact entriesIn_map ds.e2cg_b_og _ _ _ (hds.e2cg_b_og01) (fun v h0 h1 => drawNonpos_mem _ v hb h0 h1)

/-- C2 witness: at `d_emb = n_blk = d_blk = 1` with all samples `1/2`, the
forget-gate bias entries are in `[0, b]` and the input-gate bias entries in
`[-b, 0]`. -/
theorem lstm2002_init_bounds_witness :
    DrawsIn01 halfDraws ∧
    entriesIn (lstm2002Init 1 1 1 halfDraws).e2cg_b_fg 0
      (invSqrtDim 1 (1 * 1)) ∧
    entriesIn (lstm2002Init 1 1 1 halfDraws).e2cg_b_ig
      (-(invSqrtDim 1 (1 * 1))) 0 := by
  have hd : DrawsIn01 halfDraws := by
    constructor <;> intro v hv <;> simp [halfDraws] at hv <;> subst hv <;>
      norm_num
  have h := lstm2002_init_bounds 1 1 1 halfDraws hd
  exact ⟨hd, h.2.2.2.2.2.2.2.2.2.2.2.2.2.2.1,
    h.2.2.2.2.2.2.2.2.2.2.2.2.2.2.2.1⟩
